import Mathlib

/-!
Shallow embedding of the training/evaluation orchestration core of the
`gnn_tracking` repository (files `training/tcn_trainer.py` and
`postprocessing/clusterscanner.py`), together with theorems settling the
claims about it.

Modelling conventions:
* torch tensors over nodes/edges become Lean lists; float tensors become
  `ℚ`-valued lists (a NaN-tagged variant `PF` is used where NaN matters;
  infinities play no role in the claims and are not modelled);
* integer tensors become `ℤ`-valued lists;
* python dictionaries become association lists `List (String × α)`,
  looked up by `find?` on the key (python dicts have unique keys and keep
  insertion order);
* fallible code returns `Except`; the pseudo-random generator of the
  cluster scanner is abstracted into an explicit choice function.
-/

namespace GnnTracking

/-- A graph batch (`torch_geometric.data.Data`) as used by the trainer:
node-aligned fields `x`, `pt`, `particle_id`, `reconstructable`, `sector`,
edge list `edge_index` and edge-aligned fields `y`, `edge_attr`. -/
structure Data where
  x : List (List ℚ)
  pt : List ℚ
  particle_id : List ℤ
  reconstructable : List ℤ
  sector : List ℤ
  edge_index : List (ℕ × ℕ)
  y : List ℚ
  edge_attr : List (List ℚ)
deriving Repr, DecidableEq

/-- `TrainingTruthCutConfig` from `tcn_trainer.py` (lines 70-87), with the
source's defaults. -/
structure TrainingTruthCutConfig where
  pt_thld : ℚ := 0
  without_noise : Bool := false
  without_non_reconstructable : Bool := false
deriving Repr, DecidableEq

/-- `np.isclose(a, b)` with the numpy defaults `rtol=1e-5`, `atol=1e-8`:
`|a - b| <= atol + rtol * |b|`. -/
def npIsClose (a b : ℚ) : Bool :=
  decide (|a - b| ≤ 1 / 100000000 + (1 / 100000) * |b|)

/-- `TrainingTruthCutConfig.is_trivial` (lines 81-87):
`np.isclose(self.pt_thld, 0.0) and not self.without_noise and not
self.without_non_reconstructable`. -/
def TrainingTruthCutConfig.is_trivial (cfg : TrainingTruthCutConfig) : Bool :=
  npIsClose cfg.pt_thld 0 && !cfg.without_noise && !cfg.without_non_reconstructable

/-- First stage of `get_masks` (lines 101-104): when `pt_thld > 0`, on the
positions with `particle_id > 0` the mask is and-ed with `pt > pt_thld`;
noise positions (`particle_id <= 0`) are left untouched by this stage. -/
def ptStage (thld : ℚ) (pid : List ℤ) (pt : List ℚ) (m : List Bool) : List Bool :=
  if thld > 0 then
    List.zipWith (fun (pr : ℤ × ℚ) b => if pr.1 > 0 then b && decide (pr.2 > thld) else b)
      (pid.zip pt) m
  else m

/-- Second stage of `get_masks` (lines 105-106): `node_mask &= particle_id > 0`. -/
def noiseStage (without_noise : Bool) (pid : List ℤ) (m : List Bool) : List Bool :=
  if without_noise then List.zipWith (fun (p : ℤ) b => b && decide (p > 0)) pid m else m

/-- Third stage of `get_masks` (lines 107-108): `node_mask &= reconstructable > 0`. -/
def recoStage (without_non_reconstructable : Bool) (reco : List ℤ) (m : List Bool) :
    List Bool :=
  if without_non_reconstructable then
    List.zipWith (fun (r : ℤ) b => b && decide (r > 0)) reco m
  else m

/-- The node mask of `TrainingTruthCutConfig.get_masks` (lines 98-108): start
from `torch.full((len(data.x),), True)` and apply the three cut stages. -/
def TrainingTruthCutConfig.node_mask (cfg : TrainingTruthCutConfig) (data : Data) :
    List Bool :=
  recoStage cfg.without_non_reconstructable data.reconstructable
    (noiseStage cfg.without_noise data.particle_id
      (ptStage cfg.pt_thld data.particle_id data.pt
        (List.replicate data.x.length true)))

/-- Tensor fancy-indexing `mask[idxs]` as used on line 109: gather the mask
at a list of indices. -/
def gather (mask : List Bool) (idxs : List ℕ) : List Bool :=
  idxs.map (fun i => mask.getD i false)

/-- The edge mask of `get_masks` (line 109):
`node_mask[data.edge_index[0]] & node_mask[data.edge_index[1]]`
(gather at the source row, gather at the target row, elementwise and). -/
def TrainingTruthCutConfig.edge_mask (cfg : TrainingTruthCutConfig) (data : Data) :
    List Bool :=
  List.zipWith (· && ·) (gather (cfg.node_mask data) (data.edge_index.map Prod.fst))
    (gather (cfg.node_mask data) (data.edge_index.map Prod.snd))

/-- `TrainingTruthCutConfig.get_masks` (lines 89-110): returns
`(node_mask, edge_mask)`. -/
def TrainingTruthCutConfig.get_masks (cfg : TrainingTruthCutConfig) (data : Data) :
    List Bool × List Bool :=
  (cfg.node_mask data, cfg.edge_mask data)

/-- The re-indexing map of `TCNTrainer._apply_mask` (lines 251-256): the code
zips the original indices of the surviving nodes with `0..k-1` into a
dictionary; a surviving node `i` is hence sent to the number of surviving
nodes strictly before it. -/
def newIndex (mask : List Bool) (i : ℕ) : ℕ :=
  (mask.take i).count true

/-- Boolean-mask tensor indexing `t[mask]` (as in `data.x[node_mask]`): keep
the entries at the true positions, in order. -/
def filterByMask {α : Type} (l : List α) (mask : List Bool) : List α :=
  ((l.zip mask).filter (fun p => p.2)).map (fun p => p.1)

/-- `TCNTrainer._apply_mask` (lines 248-276): filter every node-aligned field
by the node mask, every edge-aligned field by the edge mask, and rewrite the
surviving edges' endpoints through the re-indexing map. -/
def apply_mask (data : Data) (node_mask edge_mask : List Bool) : Data :=
  { x := filterByMask data.x node_mask
    pt := filterByMask data.pt node_mask
    particle_id := filterByMask data.particle_id node_mask
    reconstructable := filterByMask data.reconstructable node_mask
    sector := filterByMask data.sector node_mask
    edge_index := (filterByMask data.edge_index edge_mask).map
      (fun e => (newIndex node_mask e.1, newIndex node_mask e.2))
    y := filterByMask data.y edge_mask
    edge_attr := filterByMask data.edge_attr edge_mask }

/-- The data-preparation part of `TCNTrainer.evaluate_model` (lines 289-295):
if `apply_truth_cuts` is set, compute the masks and build the masked batch
(there is no triviality check on this path); the boolean records whether the
masked-batch construction (`_apply_mask`) was invoked. -/
def evaluateModelData (cfg : TrainingTruthCutConfig) (data : Data)
    (apply_truth_cuts : Bool) : Data × Bool :=
  if apply_truth_cuts then
    (apply_mask data (cfg.get_masks data).1 (cfg.get_masks data).2, true)
  else (data, false)

/-- The control flow of `TCNTrainer.test_step` (lines 594-605): the second
evaluation pass, with truth cuts applied, runs exactly when the configured
truth cut is not trivial. -/
def testStepRunsTruthCutPass (cfg : TrainingTruthCutConfig) : Bool :=
  !cfg.is_trivial

/-- A float value that is either NaN or a finite number; `add` and `mul`
propagate NaN as IEEE arithmetic does. -/
inductive PF where
  | nan : PF
  | fin : ℚ → PF
deriving Repr, DecidableEq

/-- IEEE-style addition on NaN-tagged values: NaN absorbs. -/
def PF.add : PF → PF → PF
  | .nan, _ => .nan
  | _, .nan => .nan
  | .fin a, .fin b => .fin (a + b)

/-- IEEE-style multiplication on NaN-tagged values: NaN absorbs (also for a
zero weight, as in IEEE `0 * NaN = NaN`). -/
def PF.mul : PF → PF → PF
  | .nan, _ => .nan
  | _, .nan => .nan
  | .fin a, .fin b => .fin (a * b)

/-- `torch.isnan`. -/
def PF.isNan : PF → Bool
  | .nan => true
  | .fin _ => false

/-- The result of one loss function called on the model output: a scalar
tensor or a mapping of scalars (`isinstance(loss, Mapping)` branch of
`get_batch_losses`, lines 344-349). -/
inductive LossResult where
  | scalar : PF → LossResult
  | mapping : List (String × PF) → LossResult
deriving Repr, DecidableEq

/-- The `individual_losses` accumulation of `TCNTrainer.get_batch_losses`
(lines 342-349): a mapping result of loss function `key` is flattened into
entries keyed `f"{key}_{k}"`; a scalar result is stored under `key`. -/
def flatten_losses (lossResults : List (String × LossResult)) : List (String × PF) :=
  lossResults.flatMap fun kr =>
    match kr.2 with
    | .scalar v => [(kr.1, v)]
    | .mapping m => m.map fun kv => (kr.1 ++ "_" ++ kv.1, kv.2)

/-- The `total` of `get_batch_losses` (lines 351-354): python `sum` of
`weight[k] * individual_losses[k]` over all flattened entries, starting
from `0`. -/
def total_loss (w : String → PF) (individual_losses : List (String × PF)) : PF :=
  individual_losses.foldl (fun acc kv => acc.add ((w kv.1).mul kv.2)) (PF.fin 0)

/-- `TCNTrainer.get_batch_losses` (lines 330-357), abstracted over the values
the loss functions return on the given model output (`lossResults`, in
insertion order of `self.loss_functions`) and over the weight setter `w`:
flatten, total with weights, raise on NaN total, otherwise return the pair. -/
def get_batch_losses (w : String → PF) (lossResults : List (String × LossResult)) :
    Except String (PF × List (String × PF)) :=
  let individual_losses := flatten_losses lossResults
  let total := total_loss w individual_losses
  if total.isNan then Except.error "NaN loss encountered in test step"
  else Except.ok (total, individual_losses)

/-- A model-output tensor, at the granularity the claims need. -/
inductive Tns where
  | vecQ : List ℚ → Tns
  | vecZ : List ℤ → Tns
  | mat : List (List ℚ) → Tns
  | edges : List (ℕ × ℕ) → Tns
deriving Repr, DecidableEq

/-- `torch.squeeze` only removes singleton dimensions; on this value-level
tensor model it is the identity. -/
def squeezeT (t : Tns) : Tns := t

/-- Look a key up in the model's raw output dictionary (`out[key]` with the
`KeyError` branch of `squeeze_if_defined`/`get_if_defined`, lines 301-311,
mapped to `none`). -/
def lookupOut (out : List (String × Tns)) (k : String) : Option Tns :=
  (out.find? (fun p => p.1 == k)).map (fun p => p.2)

/-- Dictionary lookup in an association list (python `d[k]`, but total:
`none` means the key is absent). -/
def dictFind {α : Type} (d : List (String × α)) (k : String) : Option α :=
  (d.find? (fun p => p.1 == k)).map (fun p => p.2)

/-- The `pid_field` of `evaluate_model` (lines 296-299):
`particle_id * reconstructable.long()` when `mask_pids_reco` is set. -/
def pidField (data : Data) (mask_pids_reco : Bool) : List ℤ :=
  if mask_pids_reco then
    List.zipWith (fun p r => p * r) data.particle_id data.reconstructable
  else data.particle_id

/-- The dictionary literal returned by `evaluate_model` (lines 313-328), built
from the model's raw output `out` and the (possibly masked) batch: a model
output the model did not compute is stored as the key bound to `None`
(`squeeze_if_defined`/`get_if_defined` return `None` on `KeyError`), which we
model with an `Option Tns` value of `none`; ground-truth fields are always
bound to actual tensors. -/
def evaluate_model_dict (out : List (String × Tns)) (data : Data)
    (mask_pids_reco : Bool) : List (String × Option Tns) :=
  [("w", (lookupOut out "W").map squeezeT),
   ("x", lookupOut out "H"),
   ("beta", (lookupOut out "B").map squeezeT),
   ("y", some (Tns.vecQ data.y)),
   ("particle_id", some (Tns.vecZ (pidField data mask_pids_reco))),
   ("track_params", some (Tns.vecQ data.pt)),
   ("pt", some (Tns.vecQ data.pt)),
   ("reconstructable", some (Tns.vecZ data.reconstructable)),
   ("pred", lookupOut out "P"),
   ("edge_index", some (Tns.edges data.edge_index)),
   ("sector", some (Tns.vecZ data.sector)),
   ("node_features", some (Tns.mat data.x))]

/-- `TCNTrainer.evaluate_model` (lines 278-328), abstracted over the model:
optionally mask the batch, run the model on it, assemble the output
dictionary. -/
def evaluate_model (cfg : TrainingTruthCutConfig)
    (model : Data → List (String × Tns)) (data : Data)
    (mask_pids_reco : Bool) (apply_truth_cuts : Bool) :
    List (String × Option Tns) :=
  let d := (evaluateModelData cfg data apply_truth_cuts).1
  evaluate_model_dict (model d) d mask_pids_reco

/-- Insert into a sorted list (helper for the sorted-unique model of
`np.unique`). -/
def insertSorted (a : ℤ) : List ℤ → List ℤ
  | [] => [a]
  | b :: t => if a ≤ b then a :: b :: t else b :: insertSorted a t

/-- Insertion sort on integers. -/
def sortInts (l : List ℤ) : List ℤ :=
  l.foldr insertSorted []

/-- `np.unique`: the sorted list of distinct values. -/
def npUnique (l : List ℤ) : List ℤ :=
  sortInts l.dedup

/-- Lookup in the `_graph_to_sector` cache (python dict access with a
`KeyError` branch, lines 139-142). -/
def cacheLookup (cache : List (ℕ × ℤ)) (i : ℕ) : Option ℤ :=
  (cache.find? (fun p => p.1 == i)).map (fun p => p.2)

/-- `ClusterHyperParamScanner._get_sector_to_study` (lines 134-150): return
the cached sector if the graph was already visited; otherwise take the
distinct sector ids of the graph (`np.unique`), drop the background id `-1`
if present (`available.remove(-1)` in a `try`/`except ValueError`), pick one
(`np.random.choice`, abstracted into `pick`), and cache it. The updated cache
is returned alongside the choice. -/
def get_sector_to_study (pick : List ℤ → ℤ) (sectors : List (List ℤ))
    (cache : List (ℕ × ℤ)) (i_graph : ℕ) : ℤ × List (ℕ × ℤ) :=
  match cacheLookup cache i_graph with
  | some s => (s, cache)
  | none =>
    let available := (npUnique (sectors.getD i_graph [])).erase (-1)
    let choice := pick available
    (choice, (i_graph, choice) :: cache)

/-- A numpy array: its shape and its flat entries. -/
structure NpArray where
  shape : List ℕ
  elems : List ℤ
deriving Repr, DecidableEq

/-- `np.ones(shape, dtype=int)`: the given shape, all entries `1`. -/
def npOnes (shape : List ℕ) : NpArray :=
  ⟨shape, List.replicate shape.prod 1⟩

/-- python `len` of a numpy array: the first dimension of its shape. -/
def npLen (a : NpArray) : ℕ :=
  a.shape.headD 0

/-- The default sector construction of `ClusterHyperParamScanner.__init__`
(line 121) when `sectors is None`: `[np.ones(t, dtype=int) for t in
self.truth]` — note that `t` here is the truth-label *array* itself, so its
values are used as the shape. -/
def defaultSectors (truth : List (List ℕ)) : List NpArray :=
  truth.map npOnes

/-- The per-graph sector vector the docstring promises for `sectors=None`
("all hits are assumed to be from the same sector"): a 1-D all-ones vector
with one entry per hit. -/
def docstringDefaultSectors (truth : List (List ℕ)) : List NpArray :=
  truth.map fun t => ⟨[t.length], List.replicate t.length 1⟩

/-- Python truthiness test `if max_batches ...` on `int | None`
(`train_step`, line 428): `None` and `0` are falsy. -/
def breakNow (max_batches : Option ℤ) (idx : ℕ) : Bool :=
  match max_batches with
  | none => false
  | some n => if n ≠ 0 then decide ((idx : ℤ) > n) else false

/-- The batch loop of `TCNTrainer.train_step` (lines 426-429) restricted to
which batch indices get processed: iterate in order, and break before
processing a batch when `max_batches and batch_idx > max_batches`. -/
def trainStepBatches (max_batches : Option ℤ) : List ℕ → List ℕ
  | [] => []
  | idx :: rest =>
    if breakNow max_batches idx then [] else idx :: trainStepBatches max_batches rest

/-- The list of batch indices processed by one `train_step` over a loader of
`numBatches` batches. -/
def processedBatches (numBatches : ℕ) (max_batches : Option ℤ) : List ℕ :=
  trainStepBatches max_batches (List.range numBatches)

/-- A concrete small batch used by the witnesses. -/
def sampleData : Data :=
  { x := [[1, 0], [2, 0], [3, 0]]
    pt := [0, 2, 3]
    particle_id := [0, 1, 2]
    reconstructable := [1, 1, 0]
    sector := [0, 1, -1]
    edge_index := [(0, 1), (1, 2)]
    y := [1, 0]
    edge_attr := [[0], [1]] }

/-! ## Helper lemmas -/

lemma length_ptStage (thld : ℚ) (pid : List ℤ) (pt : List ℚ) (m : List Bool)
    (hpid : pid.length = m.length) (hpt : pt.length = m.length) :
    (ptStage thld pid pt m).length = m.length := by
  unfold ptStage
  split
  · simp [List.length_zipWith, hpid, hpt]
  · rfl

lemma length_noiseStage (wn : Bool) (pid : List ℤ) (m : List Bool)
    (hpid : pid.length = m.length) :
    (noiseStage wn pid m).length = m.length := by
  unfold noiseStage
  split
  · simp [List.length_zipWith, hpid]
  · rfl

lemma length_recoStage (wr : Bool) (reco : List ℤ) (m : List Bool)
    (hreco : reco.length = m.length) :
    (recoStage wr reco m).length = m.length := by
  unfold recoStage
  split
  · simp [List.length_zipWith, hreco]
  · rfl

/-- The node mask has one entry per node, as `torch.full((len(data.x),), ...)`
does, provided the batch is node-aligned. -/
lemma length_node_mask (cfg : TrainingTruthCutConfig) (data : Data)
    (hpid : data.particle_id.length = data.x.length)
    (hpt : data.pt.length = data.x.length)
    (hreco : data.reconstructable.length = data.x.length) :
    (cfg.node_mask data).length = data.x.length := by
  unfold TrainingTruthCutConfig.node_mask
  rw [length_recoStage, length_noiseStage, length_ptStage] <;>
    simp [length_ptStage, length_noiseStage, hpid, hpt, hreco]

lemma getD_replicate_true {n i : ℕ} (h : i < n) :
    (List.replicate n true).getD i false = true := by
  rw [List.getD_eq_getElem _ _ (by simpa using h)]
  simp

/-- Pointwise description of the pt-cut stage when the threshold is
positive. -/
lemma ptStage_getD (θ : ℚ) (hθ : 0 < θ) :
    ∀ (pid : List ℤ) (pt : List ℚ) (m : List Bool) (i : ℕ),
      i < pid.length → i < pt.length → i < m.length →
      (ptStage θ pid pt m).getD i false =
        (if 0 < pid.getD i 0 then m.getD i false && decide (θ < pt.getD i 0)
         else m.getD i false) := by
  intro pid
  induction pid with
  | nil => intro pt m i h1 _ _; simp at h1
  | cons p pidt ih =>
    intro pt m i h1 h2 h3
    cases pt with
    | nil => simp at h2
    | cons q ptt =>
      cases m with
      | nil => simp at h3
      | cons b mt =>
        cases i with
        | zero =>
          simp only [ptStage, if_pos hθ, List.zip_cons_cons, List.zipWith_cons_cons]
          simp [List.getD, gt_iff_lt]
        | succ j =>
          have hrec := ih ptt mt j (by simpa using h1) (by simpa using h2)
            (by simpa using h3)
          simp only [ptStage, if_pos hθ, List.zip_cons_cons, List.zipWith_cons_cons]
          simp only [List.getD_cons_succ]
          rw [← hrec]
          simp [ptStage, if_pos hθ]

/-- With the pt threshold at its default `0`, the pt-cut stage is skipped. -/
lemma ptStage_zero (pid : List ℤ) (pt : List ℚ) (m : List Bool) :
    ptStage 0 pid pt m = m := by
  simp [ptStage]

lemma noiseStage_false (pid : List ℤ) (m : List Bool) :
    noiseStage false pid m = m := rfl

lemma recoStage_false (reco : List ℤ) (m : List Bool) :
    recoStage false reco m = m := rfl

/-- The trivial configuration's node mask keeps every node. -/
lemma node_mask_trivial (data : Data) :
    ({} : TrainingTruthCutConfig).node_mask data =
      List.replicate data.x.length true := by
  unfold TrainingTruthCutConfig.node_mask
  rw [recoStage_false, noiseStage_false, ptStage_zero]

lemma gather_replicate_true {n : ℕ} {idxs : List ℕ} (h : ∀ i ∈ idxs, i < n) :
    gather (List.replicate n true) idxs = List.replicate idxs.length true := by
  induction idxs with
  | nil => rfl
  | cons a t ih =>
    simp only [gather, List.map_cons, List.length_cons, List.replicate_succ]
    rw [getD_replicate_true (h a (List.mem_cons_self a t))]
    have := ih (fun i hi => h i (List.mem_cons_of_mem a hi))
    simpa [gather] using this

/-- The trivial configuration's edge mask keeps every edge, provided edge
endpoints are valid node indices. -/
lemma edge_mask_trivial (data : Data)
    (hvalid : ∀ e ∈ data.edge_index, e.1 < data.x.length ∧ e.2 < data.x.length) :
    ({} : TrainingTruthCutConfig).edge_mask data =
      List.replicate data.edge_index.length true := by
  unfold TrainingTruthCutConfig.edge_mask
  rw [node_mask_trivial]
  rw [gather_replicate_true (by
    intro i hi
    rcases List.mem_map.mp hi with ⟨e, he, rfl⟩
    exact (hvalid e he).1)]
  rw [gather_replicate_true (by
    intro i hi
    rcases List.mem_map.mp hi with ⟨e, he, rfl⟩
    exact (hvalid e he).2)]
  simp only [List.length_map]
  induction data.edge_index.length with
  | zero => rfl
  | succ k ih => simp [List.replicate_succ, ih]

lemma filterByMask_all_true {α : Type} (l : List α) :
    filterByMask l (List.replicate l.length true) = l := by
  induction l with
  | nil => rfl
  | cons a t ih =>
    simp only [List.length_cons, List.replicate_succ]
    simp [filterByMask] at ih ⊢
    exact ih

lemma newIndex_replicate_true {n i : ℕ} (h : i ≤ n) :
    newIndex (List.replicate n true) i = i := by
  unfold newIndex
  rw [List.take_replicate]
  simp [Nat.min_eq_left h]

/-- With all-true masks, `_apply_mask` rebuilds the batch unchanged: the
masked-batch construction is a value-level no-op. -/
lemma apply_mask_all_true (data : Data)
    (hpt : data.pt.length = data.x.length)
    (hpid : data.particle_id.length = data.x.length)
    (hreco : data.reconstructable.length = data.x.length)
    (hsector : data.sector.length = data.x.length)
    (hy : data.y.length = data.edge_index.length)
    (hattr : data.edge_attr.length = data.edge_index.length)
    (hvalid : ∀ e ∈ data.edge_index, e.1 < data.x.length ∧ e.2 < data.x.length) :
    apply_mask data (List.replicate data.x.length true)
      (List.replicate data.edge_index.length true) = data := by
  obtain ⟨x, pt, pid, reco, sector, ei, y, eattr⟩ := data
  simp only at hpt hpid hreco hsector hy hattr hvalid
  simp only [apply_mask, Data.mk.injEq]
  refine ⟨?_, ?_, ?_, ?_, ?_, ?_, ?_, ?_⟩
  · exact filterByMask_all_true x
  · rw [← hpt]; exact filterByMask_all_true pt
  · rw [← hpid]; exact filterByMask_all_true pid
  · rw [← hreco]; exact filterByMask_all_true reco
  · rw [← hsector]; exact filterByMask_all_true sector
  · rw [filterByMask_all_true ei]
    have : ∀ e ∈ ei, (newIndex (List.replicate x.length true) e.1,
        newIndex (List.replicate x.length true) e.2) = e := by
      intro e he
      rw [newIndex_replicate_true (le_of_lt (hvalid e he).1),
        newIndex_replicate_true (le_of_lt (hvalid e he).2)]
    rw [List.map_congr_left this]
    simp
  · rw [← hy]; exact filterByMask_all_true y
  · rw [← hattr]; exact filterByMask_all_true eattr

/-! ## Claim C1 -/

/-- Claim C1: for every graph batch and every truth-cut configuration, the
pair `(node_mask, edge_mask)` returned by `get_masks` satisfies
`edge_mask[e] = node_mask[src(e)] && node_mask[dst(e)]` for every edge `e`
of the batch. -/
theorem get_masks_edge_mask_is_and (cfg : TrainingTruthCutConfig) (data : Data)
    (e : ℕ) (he : e < data.edge_index.length) :
    ((cfg.get_masks data).2).getD e false =
      (((cfg.get_masks data).1).getD (data.edge_index.get ⟨e, he⟩).1 false &&
        ((cfg.get_masks data).1).getD (data.edge_index.get ⟨e, he⟩).2 false) := by
  unfold TrainingTruthCutConfig.get_masks TrainingTruthCutConfig.edge_mask
  have hlen : (List.zipWith (· && ·)
      (gather (cfg.node_mask data) (data.edge_index.map Prod.fst))
      (gather (cfg.node_mask data) (data.edge_index.map Prod.snd))).length =
      data.edge_index.length := by
    simp [List.length_zipWith, gather]
  rw [List.getD_eq_getElem _ _ (by rw [hlen]; exact he)]
  rw [List.getElem_zipWith]
  unfold gather
  rw [List.getElem_map, List.getElem_map, List.getElem_map, List.getElem_map]
  simp [List.get_eq_getElem]

/-- Witness for C1 at a concrete batch and configuration. -/
theorem get_masks_edge_mask_is_and_witness :
    (({ pt_thld := 1, without_noise := true,
        without_non_reconstructable := false : TrainingTruthCutConfig }.get_masks
      sampleData).2).getD 0 false = false := by
  rw [get_masks_edge_mask_is_and _ _ 0 (by decide)]
  decide

/-! ## Claim C3 -/

/-- Claim C3: with `pt_thld > 0` and the other two cuts disabled (so that only
the pt cut acts), `get_masks` excludes exactly the nodes with
`particle_id > 0` and `pt ≤ pt_thld`, and every noise node
(`particle_id = 0`) is left included by this specific cut regardless of its
`pt`. -/
theorem pt_cut_excludes_exactly (θ : ℚ) (hθ : 0 < θ) (data : Data)
    (hpid : data.particle_id.length = data.x.length)
    (hpt : data.pt.length = data.x.length)
    (i : ℕ) (hi : i < data.x.length) :
    (((({ pt_thld := θ } : TrainingTruthCutConfig).get_masks data).1).getD i false
        = false ↔
      (0 < data.particle_id.getD i 0 ∧ data.pt.getD i 0 ≤ θ))
    ∧ (data.particle_id.getD i 0 = 0 →
        ((({ pt_thld := θ } : TrainingTruthCutConfig).get_masks data).1).getD i false
          = true) := by
  have hmask : ((({ pt_thld := θ } : TrainingTruthCutConfig).get_masks data).1) =
      ptStage θ data.particle_id data.pt (List.replicate data.x.length true) := by
    show ({ pt_thld := θ } : TrainingTruthCutConfig).node_mask data = _
    unfold TrainingTruthCutConfig.node_mask
    rw [recoStage_false, noiseStage_false]
  rw [hmask]
  rw [ptStage_getD θ hθ data.particle_id data.pt _ i (by omega) (by omega)
    (by simpa using hi)]
  rw [getD_replicate_true hi]
  constructor
  · by_cases hp : 0 < data.particle_id.getD i 0
    · simp only [if_pos hp, Bool.true_and]
      constructor
      · intro h
        refine ⟨hp, ?_⟩
        have := of_decide_eq_false h
        linarith [not_lt.mp this]
      · intro h
        rcases h with ⟨_, hle⟩
        simpa using not_lt.mpr hle
    · simp only [if_neg hp]
      constructor
      · intro h; exact absurd h (by simp)
      · intro h; exact absurd h.1 hp
  · intro h0
    have hp : ¬ 0 < data.particle_id.getD i 0 := by omega
    rw [if_neg hp]

/-- Witness for C3: in the sample batch with threshold `3`, node `1`
(`particle_id = 1`, `pt = 2 ≤ 3`) is excluded and node `0` (noise,
`pt = 0`) is kept. -/
theorem pt_cut_excludes_exactly_witness :
    ((({ pt_thld := 3 } : TrainingTruthCutConfig).get_masks sampleData).1).getD 1 false
      = false ∧
    ((({ pt_thld := 3 } : TrainingTruthCutConfig).get_masks sampleData).1).getD 0 false
      = true := by
  constructor
  · exact (pt_cut_excludes_exactly 3 (by norm_num) sampleData rfl rfl 1
      (by decide)).1.mpr (by constructor <;> decide)
  · exact (pt_cut_excludes_exactly 3 (by norm_num) sampleData rfl rfl 0
      (by decide)).2 (by decide)

/-! ## Claim C4 -/

lemma npIsClose_self (a : ℚ) : npIsClose a a = true := by
  unfold npIsClose
  simp only [sub_self, abs_zero, decide_eq_true_eq]
  positivity

lemma is_trivial_default : ({} : TrainingTruthCutConfig).is_trivial = true := by
  simp [TrainingTruthCutConfig.is_trivial, npIsClose_self]

lemma testStep_skips_truth_cut_pass_default :
    testStepRunsTruthCutPass {} = false := by
  simp [testStepRunsTruthCutPass, is_trivial_default]

/-- Counterexample for C4 as stated: even for the trivial configuration, the
masked-batch construction is not bypassed — on the `evaluate_model` path used
by `train_step`, `_apply_mask` is invoked whenever truth cuts are requested
(the flag below records the invocation); the only `is_trivial` check in the
trainer sits in `test_step`. -/
theorem trivial_cut_not_bypassed_counterexample :
    ({} : TrainingTruthCutConfig).is_trivial = true ∧
    (evaluateModelData {} sampleData true).2 = true := by
  exact ⟨is_trivial_default, rfl⟩

/-- Claim C4 (amended): whenever the truth-cut configuration is trivial
(`pt_thld = 0`, noise exclusion off, reconstructable requirement off),
`is_trivial` returns true and `get_masks` returns an all-true node mask and
an all-true edge mask; the masked-batch construction is not bypassed in
`evaluate_model` (it runs whenever truth cuts are requested) but is a
value-level no-op returning the batch unchanged; what is bypassed for a
trivial configuration is the additional truth-cut evaluation pass of
`test_step`. -/
theorem trivial_config_recognized (data : Data)
    (hpt : data.pt.length = data.x.length)
    (hpid : data.particle_id.length = data.x.length)
    (hreco : data.reconstructable.length = data.x.length)
    (hsector : data.sector.length = data.x.length)
    (hy : data.y.length = data.edge_index.length)
    (hattr : data.edge_attr.length = data.edge_index.length)
    (hvalid : ∀ e ∈ data.edge_index, e.1 < data.x.length ∧ e.2 < data.x.length) :
    ({} : TrainingTruthCutConfig).is_trivial = true
    ∧ (({} : TrainingTruthCutConfig).get_masks data).1 =
        List.replicate data.x.length true
    ∧ (({} : TrainingTruthCutConfig).get_masks data).2 =
        List.replicate data.edge_index.length true
    ∧ evaluateModelData {} data true = (data, true)
    ∧ testStepRunsTruthCutPass {} = false := by
  refine ⟨is_trivial_default, node_mask_trivial data, edge_mask_trivial data hvalid, ?_,
    testStep_skips_truth_cut_pass_default⟩
  have h1 : (({} : TrainingTruthCutConfig).get_masks data).1 =
      List.replicate data.x.length true := node_mask_trivial data
  have h2 : (({} : TrainingTruthCutConfig).get_masks data).2 =
      List.replicate data.edge_index.length true := edge_mask_trivial data hvalid
  simp only [evaluateModelData, if_true]
  rw [h1, h2, apply_mask_all_true data hpt hpid hreco hsector hy hattr hvalid]

/-- Witness for C4 (amended) at the sample batch. -/
theorem trivial_config_recognized_witness :
    evaluateModelData {} sampleData true = (sampleData, true) :=
  (trivial_config_recognized sampleData rfl rfl rfl rfl rfl rfl
    (by decide)).2.2.2.1

/-! ## Claim C5 -/

lemma getElem?_of_getD_true {mask : List Bool} {i : ℕ}
    (h : mask.getD i false = true) : mask[i]? = some true := by
  rcases ho : mask[i]? with _ | b
  · rw [List.getD_eq_getElem?_getD, ho] at h
    simp at h
  · rw [List.getD_eq_getElem?_getD, ho] at h
    simpa using h

lemma count_take_succ {mask : List Bool} {i : ℕ}
    (h : mask.getD i false = true) :
    (mask.take (i + 1)).count true = newIndex mask i + 1 := by
  rw [List.take_succ, List.count_append, getElem?_of_getD_true h]
  simp [newIndex]

/-- The re-indexing map is strictly monotone on surviving nodes. -/
lemma newIndex_strictMono {mask : List Bool} {i j : ℕ} (hij : i < j)
    (hi : mask.getD i false = true) :
    newIndex mask i < newIndex mask j := by
  have hc := count_take_succ hi
  have hsub : (mask.take (i + 1)).Sublist (mask.take j) := by
    have heq : mask.take (i + 1) = (mask.take j).take (i + 1) := by
      rw [List.take_take, Nat.min_eq_left (by omega)]
    rw [heq]
    exact List.take_sublist _ _
  have hle := hsub.count_le true
  unfold newIndex at *
  omega

/-- The new index of a surviving node is below the survivor count. -/
lemma newIndex_lt_count {mask : List Bool} {i : ℕ}
    (hi : mask.getD i false = true) :
    newIndex mask i < mask.count true := by
  have hc := count_take_succ hi
  have hle := (List.take_sublist (i + 1) mask).count_le true
  unfold newIndex at *
  omega

lemma filterByMask_cons {α : Type} (a : α) (l : List α) (b : Bool) (m : List Bool) :
    filterByMask (a :: l) (b :: m) =
      if b then a :: filterByMask l m else filterByMask l m := by
  cases b <;> simp [filterByMask]

lemma filterByMask_map_left {α β : Type} (f : α → β) (l : List α) (m : List Bool) :
    filterByMask (l.map f) m = (filterByMask l m).map f := by
  induction l generalizing m with
  | nil => simp [filterByMask]
  | cons a t ih =>
    cases m with
    | nil => simp [filterByMask]
    | cons b mt =>
      cases b <;> simp [filterByMask_cons, ih]

lemma newIndex_cons_succ (b : Bool) (m : List Bool) (i : ℕ) :
    newIndex (b :: m) (i + 1) = (if b then 1 else 0) + newIndex m i := by
  cases b <;> simp [newIndex, List.count_cons, Nat.add_comm]

/-- The surviving nodes, listed in their original order, receive exactly the
new indices `0, 1, ..., k-1` under the re-indexing map. -/
lemma map_newIndex_filter_range (mask : List Bool) :
    (filterByMask (List.range mask.length) mask).map (newIndex mask) =
      List.range (mask.count true) := by
  induction mask with
  | nil => rfl
  | cons b m ih =>
    cases b with
    | false =>
      rw [List.length_cons, List.range_succ_eq_map, filterByMask_cons]
      simp only [Bool.false_eq_true, if_false]
      rw [filterByMask_map_left, List.map_map]
      have hcomp : (newIndex (false :: m)) ∘ Nat.succ = newIndex m := by
        funext i
        simp [newIndex_cons_succ]
      rw [hcomp, ih]
      simp [List.count_cons]
    | true =>
      rw [List.length_cons, List.range_succ_eq_map, filterByMask_cons]
      simp only [if_true]
      rw [List.map_cons, filterByMask_map_left, List.map_map]
      have hcomp : (newIndex (true :: m)) ∘ Nat.succ = Nat.succ ∘ (newIndex m) := by
        funext i
        simp [newIndex_cons_succ, Nat.add_comm]
      rw [hcomp, ← List.map_map, ih]
      have hcount : (true :: m).count true = m.count true + 1 := by
        simp [List.count_cons]
      rw [hcount, List.range_succ_eq_map]
      rfl

/-- Claim C5: `_apply_mask` re-indexes the `k` surviving nodes to the
contiguous range `0..k-1` injectively and order-preservingly (surviving
nodes `i < j` get new indices in the same order, and the survivors receive
exactly the indices `0..k-1` in order), and every surviving edge's endpoint
pair in the returned batch is the image of its original endpoints under this
mapping. -/
theorem apply_mask_reindexing (data : Data) (nm em : List Bool) :
    (∀ i j, i < j → nm.getD i false = true → nm.getD j false = true →
      newIndex nm i < newIndex nm j)
    ∧ (∀ i, nm.getD i false = true → newIndex nm i < nm.count true)
    ∧ ((filterByMask (List.range nm.length) nm).map (newIndex nm) =
        List.range (nm.count true))
    ∧ (∀ k, k < (filterByMask data.edge_index em).length →
        (apply_mask data nm em).edge_index.getD k (0, 0) =
          (newIndex nm ((filterByMask data.edge_index em).getD k (0, 0)).1,
           newIndex nm ((filterByMask data.edge_index em).getD k (0, 0)).2)) := by
  refine ⟨fun i j hij hi _ => newIndex_strictMono hij hi,
    fun i hi => newIndex_lt_count hi,
    map_newIndex_filter_range nm, ?_⟩
  intro k hk
  show ((filterByMask data.edge_index em).map
    (fun e => (newIndex nm e.1, newIndex nm e.2))).getD k (0, 0) = _
  rw [List.getD_eq_getElem _ _ (by simpa using hk),
    List.getD_eq_getElem _ _ hk, List.getElem_map]

/-- Witness for C5: on the mask `[true, false, true]`, the two surviving
nodes `0` and `2` get the ordered new indices `0 < 1`, and the sample batch's
surviving edge is rewritten through the map. -/
theorem apply_mask_reindexing_witness :
    newIndex [true, false, true] 0 < newIndex [true, false, true] 2 ∧
    (apply_mask sampleData [true, false, true] [false, true]).edge_index.getD 0 (0, 0)
      = (newIndex [true, false, true] 1, newIndex [true, false, true] 2) := by
  constructor
  · exact (apply_mask_reindexing sampleData [true, false, true] [false, true]).1
      0 2 (by decide) (by decide) (by decide)
  · have h := (apply_mask_reindexing sampleData [true, false, true] [false, true]).2.2.2
      0 (by decide)
    rw [h]
    decide

/-! ## Claim C2 -/

lemma isNan_add (a b : PF) : (a.add b).isNan = (a.isNan || b.isNan) := by
  cases a <;> cases b <;> rfl

lemma isNan_mul (a b : PF) : (a.mul b).isNan = (a.isNan || b.isNan) := by
  cases a <;> cases b <;> rfl

/-- The python `sum` of the weighted losses is NaN exactly when the starting
accumulator is NaN or some weighted term is NaN. -/
lemma isNan_foldl_weighted (w : String → PF) (l : List (String × PF)) (acc : PF) :
    (l.foldl (fun a kv => a.add ((w kv.1).mul kv.2)) acc).isNan =
      (acc.isNan || l.any (fun kv => ((w kv.1).mul kv.2).isNan)) := by
  induction l generalizing acc with
  | nil => simp
  | cons h t ih =>
    simp only [List.foldl_cons, List.any_cons]
    rw [ih, isNan_add, Bool.or_assoc]

lemma isNan_total_loss (w : String → PF) (l : List (String × PF)) :
    (total_loss w l).isNan = l.any (fun kv => ((w kv.1).mul kv.2).isNan) := by
  unfold total_loss
  rw [isNan_foldl_weighted]
  rfl

/-- Claim C2: `get_batch_losses` raises exactly when the weighted total over
the flattened loss entries is NaN; a single NaN loss entry forces the error
(NaN absorbs through every weight and through the sum), and a non-NaN total
returns the pair normally. -/
theorem get_batch_losses_nan_behavior (w : String → PF)
    (lossResults : List (String × LossResult)) :
    ((∃ msg, get_batch_losses w lossResults = Except.error msg) ↔
      (total_loss w (flatten_losses lossResults)).isNan = true)
    ∧ ((∃ kv ∈ flatten_losses lossResults, kv.2.isNan = true) →
        ∃ msg, get_batch_losses w lossResults = Except.error msg)
    ∧ ((total_loss w (flatten_losses lossResults)).isNan = false →
        get_batch_losses w lossResults =
          Except.ok (total_loss w (flatten_losses lossResults),
            flatten_losses lossResults)) := by
  have hiff : (∃ msg, get_batch_losses w lossResults = Except.error msg) ↔
      (total_loss w (flatten_losses lossResults)).isNan = true := by
    unfold get_batch_losses
    rcases hn : (total_loss w (flatten_losses lossResults)).isNan with _ | _
    · simp [hn]
    · simp [hn]
  refine ⟨hiff, ?_, ?_⟩
  · rintro ⟨kv, hmem, hnan⟩
    apply hiff.mpr
    rw [isNan_total_loss]
    refine List.any_eq_true.mpr ⟨kv, hmem, ?_⟩
    rw [isNan_mul, hnan, Bool.or_true]
  · intro hfin
    unfold get_batch_losses
    simp [hfin]

/-- Witness for C2: one loss function returning NaN triggers the error even
though the other loss is finite. -/
theorem get_batch_losses_nan_behavior_witness :
    ∃ msg, get_batch_losses (fun _ => PF.fin 1)
      [("a", LossResult.scalar PF.nan), ("b", LossResult.scalar (PF.fin 2))] =
      Except.error msg :=
  (get_batch_losses_nan_behavior (fun _ => PF.fin 1)
      [("a", LossResult.scalar PF.nan), ("b", LossResult.scalar (PF.fin 2))]).2.1
    ⟨("a", PF.nan), by simp [flatten_losses], rfl⟩

/-! ## Claim C6 -/

/-- Counterexample for C6 as stated: a mapping-valued loss named `a` with
sub-key `b` is stored under the underscore-joined key `a_b`
(`f"{key}_{k}"`, line 347), not under the dotted key `a.b`. -/
theorem flatten_losses_not_dotted_counterexample :
    dictFind (flatten_losses [("a", LossResult.mapping [("b", PF.fin 1)])]) "a.b"
      = none ∧
    dictFind (flatten_losses [("a", LossResult.mapping [("b", PF.fin 1)])]) "a_b"
      = some (PF.fin 1) := by
  exact ⟨rfl, rfl⟩

/-- Claim C6 (amended): for every loss function named `name` whose result is
a mapping, the loss aggregator stores each entry under the underscore-joined
key `name_subkey` in the per-name loss record (not the dotted `name.subkey`),
and stores a non-mapping result under `name` unchanged. -/
theorem flatten_losses_underscore_keys (lossResults : List (String × LossResult)) :
    (∀ key m, (key, LossResult.mapping m) ∈ lossResults →
      ∀ k v, (k, v) ∈ m → (key ++ "_" ++ k, v) ∈ flatten_losses lossResults)
    ∧ (∀ key v, (key, LossResult.scalar v) ∈ lossResults →
        (key, v) ∈ flatten_losses lossResults) := by
  constructor
  · intro key m hmem k v hkv
    unfold flatten_losses
    refine List.mem_flatMap.mpr ⟨(key, LossResult.mapping m), hmem, ?_⟩
    simp only
    exact List.mem_map.mpr ⟨(k, v), hkv, rfl⟩
  · intro key v hmem
    unfold flatten_losses
    refine List.mem_flatMap.mpr ⟨(key, LossResult.scalar v), hmem, ?_⟩
    simp

/-- Witness for C6 (amended) on a concrete loss record. -/
theorem flatten_losses_underscore_keys_witness :
    ("a_b", PF.fin 1) ∈
      flatten_losses [("a", LossResult.mapping [("b", PF.fin 1)]),
        ("c", LossResult.scalar (PF.fin 2))] :=
  (flatten_losses_underscore_keys
      [("a", LossResult.mapping [("b", PF.fin 1)]),
        ("c", LossResult.scalar (PF.fin 2))]).1
    "a" [("b", PF.fin 1)] (by simp) "b" (PF.fin 1) (by simp)

/-! ## Claim C7 -/

/-- Counterexample for C7 as stated: when the model computes no edge weight
(`"W"` missing from its raw output), the mapping returned by
`evaluate_model` still CONTAINS the key `"w"` — bound to `None` — rather
than having the key absent. -/
theorem evaluate_model_key_not_absent_counterexample :
    dictFind (evaluate_model {} (fun _ => []) sampleData true false) "w"
      = some none ∧
    dictFind (evaluate_model {} (fun _ => []) sampleData true false) "w"
      ≠ none := by
  refine ⟨rfl, ?_⟩
  intro h
  simp [evaluate_model, evaluateModelData, evaluate_model_dict, dictFind,
    List.find?, lookupOut] at h

/-- Claim C7 (amended): for every model output the current model does not
compute (`W`, `H`, `B`, `P`), the mapping returned by `evaluate_model` has
the corresponding key PRESENT and bound to `None` (python's null, modelled
by an `Option` value of `none`) — not absent, and not a placeholder tensor;
consumers test `is not None`. Ground-truth fields (`pt`, `sector`,
`particle_id`, edge truth labels `y`, `edge_index`, `node_features`,
`track_params`, `reconstructable`) are always present and bound to actual
tensors. -/
theorem evaluate_model_missing_outputs_are_none
    (out : List (String × Tns)) (data : Data) (mpr : Bool) :
    (lookupOut out "W" = none →
      dictFind (evaluate_model_dict out data mpr) "w" = some none)
    ∧ (lookupOut out "H" = none →
      dictFind (evaluate_model_dict out data mpr) "x" = some none)
    ∧ (lookupOut out "B" = none →
      dictFind (evaluate_model_dict out data mpr) "beta" = some none)
    ∧ (lookupOut out "P" = none →
      dictFind (evaluate_model_dict out data mpr) "pred" = some none)
    ∧ dictFind (evaluate_model_dict out data mpr) "y"
        = some (some (Tns.vecQ data.y))
    ∧ dictFind (evaluate_model_dict out data mpr) "particle_id"
        = some (some (Tns.vecZ (pidField data mpr)))
    ∧ dictFind (evaluate_model_dict out data mpr) "track_params"
        = some (some (Tns.vecQ data.pt))
    ∧ dictFind (evaluate_model_dict out data mpr) "pt"
        = some (some (Tns.vecQ data.pt))
    ∧ dictFind (evaluate_model_dict out data mpr) "reconstructable"
        = some (some (Tns.vecZ data.reconstructable))
    ∧ dictFind (evaluate_model_dict out data mpr) "edge_index"
        = some (some (Tns.edges data.edge_index))
    ∧ dictFind (evaluate_model_dict out data mpr) "sector"
        = some (some (Tns.vecZ data.sector))
    ∧ dictFind (evaluate_model_dict out data mpr) "node_features"
        = some (some (Tns.mat data.x))
    ∧ (∀ cfg model, evaluate_model cfg model data mpr false
        = evaluate_model_dict (model data) data mpr) := by
  refine ⟨?_, ?_, ?_, ?_, rfl, rfl, rfl, rfl, rfl, rfl, rfl, rfl, fun cfg model => rfl⟩
  · intro h
    show some ((lookupOut out "W").map squeezeT) = some none
    rw [h]
    rfl
  · intro h
    show some (lookupOut out "H") = some none
    rw [h]
  · intro h
    show some ((lookupOut out "B").map squeezeT) = some none
    rw [h]
    rfl
  · intro h
    show some (lookupOut out "P") = some none
    rw [h]

/-- Witness for C7 (amended): a model producing only latent coordinates
leaves `"beta"` present and bound to `None`. -/
theorem evaluate_model_missing_outputs_are_none_witness :
    dictFind (evaluate_model_dict [("H", Tns.mat [[1]])] sampleData true) "beta"
      = some none :=
  (evaluate_model_missing_outputs_are_none [("H", Tns.mat [[1]])] sampleData
    true).2.2.1 rfl

/-! ## Claim C8 -/

lemma perm_insertSorted (a : ℤ) (l : List ℤ) :
    List.Perm (insertSorted a l) (a :: l) := by
  induction l with
  | nil => exact List.Perm.refl _
  | cons b t ih =>
    by_cases h : a ≤ b
    · rw [insertSorted, if_pos h]
    · rw [insertSorted, if_neg h]
      exact (List.Perm.cons b ih).trans (List.Perm.swap a b t)

lemma perm_sortInts (l : List ℤ) : List.Perm (sortInts l) l := by
  induction l with
  | nil => exact List.Perm.refl _
  | cons a t ih =>
    show List.Perm (insertSorted a (sortInts t)) (a :: t)
    exact (perm_insertSorted a (sortInts t)).trans (List.Perm.cons a ih)

lemma mem_npUnique {x : ℤ} {l : List ℤ} : x ∈ npUnique l ↔ x ∈ l := by
  unfold npUnique
  rw [(perm_sortInts l.dedup).mem_iff, List.mem_dedup]

lemma nodup_npUnique (l : List ℤ) : (npUnique l).Nodup := by
  unfold npUnique
  exact ((perm_sortInts l.dedup).nodup_iff).mpr (List.nodup_dedup l)

/-- Claim C8: the per-graph sector selector is cache-stable — calling it
again after a first call (on the returned cache) returns the very same
sector and leaves the cache unchanged — and, on a first visit, the chosen
sector is never the background id `-1` when the graph has any other sector,
for every random pick that selects a member of its candidate list. -/
theorem get_sector_to_study_stable (pick : List ℤ → ℤ) (sectors : List (List ℤ))
    (cache : List (ℕ × ℤ)) (i : ℕ)
    (hpick : ∀ l : List ℤ, l ≠ [] → pick l ∈ l) :
    (get_sector_to_study pick sectors
        (get_sector_to_study pick sectors cache i).2 i =
      get_sector_to_study pick sectors cache i)
    ∧ (cacheLookup cache i = none →
        (∃ s ∈ sectors.getD i [], s ≠ -1) →
        (get_sector_to_study pick sectors cache i).1 ≠ -1) := by
  constructor
  · rcases hc : cacheLookup cache i with _ | s
    · have h1 : get_sector_to_study pick sectors cache i =
          (pick ((npUnique (sectors.getD i [])).erase (-1)),
           (i, pick ((npUnique (sectors.getD i [])).erase (-1))) :: cache) := by
        unfold get_sector_to_study
        rw [hc]
      rw [h1]
      show get_sector_to_study pick sectors
          ((i, pick ((npUnique (sectors.getD i [])).erase (-1))) :: cache) i = _
      have hhit : cacheLookup
          ((i, pick ((npUnique (sectors.getD i [])).erase (-1))) :: cache) i =
          some (pick ((npUnique (sectors.getD i [])).erase (-1))) := by
        unfold cacheLookup
        simp [List.find?]
      unfold get_sector_to_study
      rw [hhit]
    · have h1 : get_sector_to_study pick sectors cache i = (s, cache) := by
        unfold get_sector_to_study
        rw [hc]
      rw [h1]
      exact h1
  · intro hc hex
    rcases hex with ⟨s, hs, hsne⟩
    unfold get_sector_to_study
    rw [hc]
    have hmem : s ∈ (npUnique (sectors.getD i [])).erase (-1) :=
      (List.mem_erase_of_ne hsne).mpr (mem_npUnique.mpr hs)
    have hne : (npUnique (sectors.getD i [])).erase (-1) ≠ [] :=
      List.ne_nil_of_mem hmem
    have hpmem := hpick _ hne
    have hnotin : (-1 : ℤ) ∉ (npUnique (sectors.getD i [])).erase (-1) :=
      (nodup_npUnique (sectors.getD i [])).not_mem_erase
    simp only
    intro heq
    rw [heq] at hpmem
    exact hnotin hpmem

/-- Witness for C8: with the head-picking rng on a one-graph sector list
`[-1, 2, 5]`, the second call returns the cached result of the first, and
the chosen sector is not the background id. -/
theorem get_sector_to_study_stable_witness :
    (get_sector_to_study (fun l => l.headD 0) [[-1, 2, 5]]
        (get_sector_to_study (fun l => l.headD 0) [[-1, 2, 5]] [] 0).2 0 =
      get_sector_to_study (fun l => l.headD 0) [[-1, 2, 5]] [] 0)
    ∧ (get_sector_to_study (fun l => l.headD 0) [[-1, 2, 5]] [] 0).1 ≠ -1 := by
  have hpick : ∀ l : List ℤ, l ≠ [] → (fun l => l.headD 0) l ∈ l := by
    intro l hl
    cases l with
    | nil => exact absurd rfl hl
    | cons a t => exact List.mem_cons_self a t
  have h := get_sector_to_study_stable (fun l => l.headD 0) [[-1, 2, 5]] [] 0 hpick
  exact ⟨h.1, h.2 rfl ⟨2, by simp, by decide⟩⟩

/-! ## Claim C9 -/

/-- C9 is a bug in the code: `__init__` builds the default sectors as
`np.ones(t, dtype=int)` where `t` is the truth-label array itself, so the
truth VALUES become the shape. Evaluated at the failing input
`truth = [[3, 2]]` (one graph, two hits with labels 3 and 2), the built
sector array has shape `(3, 2)` — a 2-D array of six ones with `len` 3 —
whereas the docstring and the claim require the 1-D all-ones vector of
length 2 built by `np.ones(len(t))`. -/
theorem default_sectors_shape_bug :
    defaultSectors [[3, 2]] = [⟨[3, 2], List.replicate 6 1⟩]
    ∧ npLen (npOnes [3, 2]) = 3
    ∧ (npOnes [3, 2]).shape.length = 2
    ∧ ([3, 2] : List ℕ).length = 2
    ∧ docstringDefaultSectors [[3, 2]] = [⟨[2], List.replicate 2 1⟩]
    ∧ defaultSectors [[3, 2]] ≠ docstringDefaultSectors [[3, 2]] := by
  refine ⟨rfl, rfl, rfl, rfl, rfl, ?_⟩
  decide

/-! ## Claim C10 -/

lemma trainStepBatches_no_break_prefix (mb : Option ℤ) (l1 l2 : List ℕ)
    (h : ∀ i ∈ l1, breakNow mb i = false) :
    trainStepBatches mb (l1 ++ l2) = l1 ++ trainStepBatches mb l2 := by
  induction l1 with
  | nil => rfl
  | cons a t ih =>
    rw [List.cons_append, trainStepBatches,
      h a (List.mem_cons_self a t), ih (fun i hi => h i (List.mem_cons_of_mem a hi))]
    rfl

lemma trainStepBatches_no_break (mb : Option ℤ) (l : List ℕ)
    (h : ∀ i ∈ l, breakNow mb i = false) :
    trainStepBatches mb l = l := by
  have := trainStepBatches_no_break_prefix mb l [] h
  simpa [trainStepBatches] using this

lemma breakNow_none (i : ℕ) : breakNow none i = false := rfl

lemma breakNow_zero (i : ℕ) : breakNow (some 0) i = false := by
  simp [breakNow]

/-- Claim C10: `train_step(max_batches=n)` with `n ≥ 1` processes the batches
with indices `0` through `n` inclusive (the break `batch_idx > max_batches`
only fires at index `n + 1`), and `max_batches=0` is treated like `None`
by the python truthiness guard, so no limit applies. -/
theorem train_step_max_batches (n : ℤ) (hn : 1 ≤ n) (L : ℕ)
    (hL : (n : ℤ) + 1 ≤ (L : ℤ)) :
    processedBatches L (some n) = List.range (n.toNat + 1)
    ∧ processedBatches L (some 0) = List.range L
    ∧ processedBatches L none = List.range L := by
  refine ⟨?_, ?_, ?_⟩
  · set k := n.toNat + 1 with hk
    have hkn : (k : ℤ) = n + 1 := by
      simp [hk]
      omega
    have hkL : k ≤ L := by omega
    have hsplit : List.range L = List.range k ++ (List.range (L - k)).map (k + ·) := by
      conv_lhs => rw [show L = k + (L - k) by omega]
      rw [List.range_add]
    unfold processedBatches
    rw [hsplit, trainStepBatches_no_break_prefix]
    · have htail : trainStepBatches (some n) ((List.range (L - k)).map (k + ·)) = [] := by
        rcases hcase : L - k with _ | m
        · rfl
        · rw [List.range_succ_eq_map]
          rw [List.map_cons, trainStepBatches]
          have hbrk : breakNow (some n) (k + 0) = true := by
            simp only [breakNow, if_pos (show n ≠ 0 by omega), decide_eq_true_eq]
            push_cast [hk]
            omega
          rw [hbrk]
          rfl
      rw [htail, List.append_nil]
    · intro i hi
      have hilt : i < k := List.mem_range.mp hi
      simp only [breakNow, if_pos (show n ≠ 0 by omega), decide_eq_false_iff_not, not_lt]
      have : (i : ℤ) < (k : ℤ) := by exact_mod_cast hilt
      omega
  · exact trainStepBatches_no_break _ _ (fun i _ => breakNow_zero i)
  · exact trainStepBatches_no_break _ _ (fun i _ => breakNow_none i)

/-- Witness for C10: a loader of 5 batches with `max_batches=2` processes
batches `0, 1, 2`; with `max_batches=0` or `None` it processes all 5. -/
theorem train_step_max_batches_witness :
    processedBatches 5 (some 2) = List.range 3
    ∧ processedBatches 5 (some 0) = List.range 5
    ∧ processedBatches 5 none = List.range 5 :=
  train_step_max_batches 2 (by norm_num) 5 (by norm_num)

end GnnTracking
